import Mathlib

/-!
Verification development for the create-rss-feed extraction core.

The TypeScript source is embedded shallowly: pure logic is translated to
executable Lean definitions, and host-library calls (the WHATWG URL parser,
`new Date`, the HTTP client, the cheerio DOM queries and the feed-extractor
library) are modelled as abstract collaborator functions carried in a `JsEnv`
record.  Machine strings are Lean `String`s; JavaScript optional / nullable
values are `Option`s; a JavaScript value that may be absent, of the wrong
runtime type, or well-typed is modelled by a small inductive.
-/

namespace CreateRssFeed

/-! ## JavaScript string primitives -/

/-- Prefix test on character lists: `startsWithL s p` is true when `p` is an
initial segment of `s`. -/
def startsWithL : List Char → List Char → Bool
  | _, [] => true
  | [], _ :: _ => false
  | a :: s, b :: t => a == b && startsWithL s t

/-- Substring test on character lists, the model of JavaScript
`String.prototype.includes`. -/
def hasSubL : List Char → List Char → Bool
  | [], sub => sub.isEmpty
  | a :: rest, sub => startsWithL (a :: rest) sub || hasSubL rest sub

/-- Model of JavaScript `text.includes(sub)`. -/
def jsIncludes (s sub : String) : Bool :=
  hasSubL s.toList sub.toList

/-- Model of JavaScript `String.prototype.toLowerCase` (character-wise
lowercasing). -/
def jsToLower (s : String) : String :=
  ⟨s.toList.map Char.toLower⟩

/-- Model of JavaScript `String.prototype.endsWith`. -/
def jsEndsWith (s suffix : String) : Bool :=
  startsWithL s.toList.reverse suffix.toList.reverse

/-- Model of JavaScript `String.prototype.trim`: strip whitespace from both
ends. -/
def jsTrim (s : String) : String :=
  ⟨((s.toList.dropWhile Char.isWhitespace).reverse.dropWhile Char.isWhitespace).reverse⟩

/-- Replace every maximal whitespace run by a single space: the model of
`value.replace(/\s+/g, " ")`.  The boolean argument records whether the
previous character was whitespace. -/
def collapseWsGo : Bool → List Char → List Char
  | _, [] => []
  | prevWs, c :: rest =>
    if c.isWhitespace then
      if prevWs then collapseWsGo true rest
      else ' ' :: collapseWsGo true rest
    else c :: collapseWsGo false rest

/-- `cleanText` from scraper.ts: falsy input gives `""`, otherwise collapse
whitespace runs to single spaces and trim. -/
def cleanText (value : Option String) : String :=
  match value with
  | none => ""
  | some s => if s = "" then "" else jsTrim ⟨collapseWsGo false s.toList⟩

/-- First-occurrence-preserving deduplication, the model of
`Array.from(new Set(list))` for string lists. -/
def dedupFirstGo (seen : List String) : List String → List String
  | [] => []
  | a :: rest =>
    if a ∈ seen then dedupFirstGo seen rest
    else a :: dedupFirstGo (a :: seen) rest

def dedupFirst (l : List String) : List String :=
  dedupFirstGo [] l

/-! ## Rule Engine (filterRules.ts)

Raw rule records arrive from JSON / IPC, so each field may be absent, may have
the wrong runtime type, or may hold a value; the `Js*Val` inductives model
exactly the cases the normalizers in filterRules.ts distinguish. -/

/-- One element of a raw term-list: a string or some other runtime value. -/
inductive JsStrItem where
  | str (s : String)
  | nonString
deriving DecidableEq, Repr

/-- A raw list-of-terms field: absent (or null), present but not an array, or
an array of items. -/
inductive JsListVal where
  | absent
  | nonArray
  | arr (items : List JsStrItem)
deriving DecidableEq, Repr

/-- A raw boolean field: absent, the literal `true`, the literal `false`, or a
non-boolean value. -/
inductive JsBoolVal where
  | absent
  | jsTrue
  | jsFalse
  | nonBool
deriving DecidableEq, Repr

/-- A raw `skipTopCount` field: absent, not a number, a non-finite number
(NaN or an infinity), or a finite number (every finite double is rational). -/
inductive JsNumVal where
  | absent
  | nonNumber
  | nonFinite
  | finite (q : ℚ)
deriving DecidableEq, Repr

/-- The `SourceRules` record as received (all fields optional and untrusted). -/
structure SourceRules where
  titleIncludes : JsListVal := .absent
  titleExcludes : JsListVal := .absent
  urlIncludes : JsListVal := .absent
  urlExcludes : JsListVal := .absent
  descriptionRequired : JsBoolVal := .absent
  publishedAtRequired : JsBoolVal := .absent
  skipTopCount : JsNumVal := .absent
deriving DecidableEq, Repr

structure NormalizedSourceRules where
  titleIncludes : List String
  titleExcludes : List String
  urlIncludes : List String
  urlExcludes : List String
  descriptionRequired : Bool
  publishedAtRequired : Bool
  skipTopCount : Nat
deriving DecidableEq, Repr

/-- `normalizeTermList`: non-arrays become `[]`; array items that are not
strings become `""`; items are trimmed, empties dropped, and the result
deduplicated keeping first occurrences. -/
def normalizeTermList : JsListVal → List String
  | .arr items =>
    dedupFirst (((items.map fun it =>
      match it with
      | .str s => jsTrim s
      | .nonString => "")).filter fun s => s.length != 0)
  | _ => []

/-- `normalizeBoolean`: only the literal `true` normalizes to `true`. -/
def normalizeBoolean : JsBoolVal → Bool
  | .jsTrue => true
  | _ => false

/-- `normalizeSkipTopCount`: non-numbers and non-finite numbers become 0;
finite numbers are floored and clamped below at 0. -/
def normalizeSkipTopCount : JsNumVal → Nat
  | .finite q => let rounded := q.floor; if 0 < rounded then rounded.toNat else 0
  | _ => 0

/-- `normalizeSourceRules` (the `rules ?? {}` default is the all-absent
record, modelled by `Option`). -/
def normalizeSourceRules (rules : Option SourceRules) : NormalizedSourceRules :=
  let input := rules.getD {}
  { titleIncludes := normalizeTermList input.titleIncludes
    titleExcludes := normalizeTermList input.titleExcludes
    urlIncludes := normalizeTermList input.urlIncludes
    urlExcludes := normalizeTermList input.urlExcludes
    descriptionRequired := normalizeBoolean input.descriptionRequired
    publishedAtRequired := normalizeBoolean input.publishedAtRequired
    skipTopCount := normalizeSkipTopCount input.skipTopCount }

def hasActiveRules (rules : NormalizedSourceRules) : Bool :=
  rules.titleIncludes.length != 0 ||
  rules.titleExcludes.length != 0 ||
  rules.urlIncludes.length != 0 ||
  rules.urlExcludes.length != 0 ||
  rules.descriptionRequired ||
  rules.publishedAtRequired ||
  rules.skipTopCount != 0

/-- The compact form kept for storage / display: default fields omitted. -/
structure CompactSourceRules where
  titleIncludes : Option (List String) := none
  titleExcludes : Option (List String) := none
  urlIncludes : Option (List String) := none
  urlExcludes : Option (List String) := none
  descriptionRequired : Option Bool := none
  publishedAtRequired : Option Bool := none
  skipTopCount : Option Nat := none
deriving DecidableEq, Repr

/-- `compactSourceRules`: build a record holding only the non-default fields;
return `none` when every field is default (`Object.keys(compact).length === 0`). -/
def compactSourceRules (rules : NormalizedSourceRules) : Option CompactSourceRules :=
  let compact : CompactSourceRules :=
    { titleIncludes := if rules.titleIncludes.length != 0 then some rules.titleIncludes else none
      titleExcludes := if rules.titleExcludes.length != 0 then some rules.titleExcludes else none
      urlIncludes := if rules.urlIncludes.length != 0 then some rules.urlIncludes else none
      urlExcludes := if rules.urlExcludes.length != 0 then some rules.urlExcludes else none
      descriptionRequired := if rules.descriptionRequired then some true else none
      publishedAtRequired := if rules.publishedAtRequired then some true else none
      skipTopCount := if rules.skipTopCount != 0 then some rules.skipTopCount else none }
  if compact.titleIncludes.isSome || compact.titleExcludes.isSome ||
     compact.urlIncludes.isSome || compact.urlExcludes.isSome ||
     compact.descriptionRequired.isSome || compact.publishedAtRequired.isSome ||
     compact.skipTopCount.isSome
  then some compact else none

/-- The structural view filtering needs of an article
(`RuleApplicableArticle`: every field optional). -/
structure RuleView where
  title : Option String := none
  url : Option String := none
  description : Option String := none
  publishedAt : Option String := none
deriving DecidableEq, Repr

/-- `includesAll`: the text contains every term, case-insensitively
(`terms.every(...)`, vacuously true on `[]`). -/
def includesAll (text : String) (terms : List String) : Bool :=
  terms.all fun term => jsIncludes (jsToLower text) (jsToLower term)

/-- `includesAny`: the text contains some term, case-insensitively
(`terms.some(...)`, false on `[]`). -/
def includesAny (text : String) (terms : List String) : Bool :=
  terms.any fun term => jsIncludes (jsToLower text) (jsToLower term)

/-- `isPresent`: the optional string trims to something non-empty. -/
def isPresent (value : Option String) : Bool :=
  (jsTrim (value.getD "")).length != 0

/-- `matchesArticle`: the keep-predicate applied after the leading skip. -/
def matchesArticle {T : Type} (toView : T → RuleView) (article : T)
    (rules : NormalizedSourceRules) : Bool :=
  let v := toView article
  let title := jsTrim (v.title.getD "")
  let url := jsTrim (v.url.getD "")
  includesAll title rules.titleIncludes &&
  !(includesAny title rules.titleExcludes) &&
  includesAll url rules.urlIncludes &&
  !(includesAny url rules.urlExcludes) &&
  (!rules.descriptionRequired || isPresent v.description) &&
  (!rules.publishedAtRequired || isPresent v.publishedAt)

structure SourceRuleApplyResult (T : Type) where
  articles : List T
  skippedTopCount : Nat
  ruleFilteredCount : Nat
  filteredOutCount : Nat
  appliedRules : Option CompactSourceRules
deriving DecidableEq, Repr

/-- `applySourceRules`: normalize, pass through unchanged when no rule is
active, otherwise drop the leading `skipTopCount` articles (clamped) and keep
the remainder matching the predicate.  The TypeScript generic
`T extends RuleApplicableArticle` becomes an explicit structural view. -/
def applySourceRules {T : Type} (toView : T → RuleView) (articles : List T)
    (rulesInput : Option SourceRules) : SourceRuleApplyResult T :=
  let rules := normalizeSourceRules rulesInput
  if hasActiveRules rules then
    let skippedTopCount := min rules.skipTopCount articles.length
    let afterSkip := articles.drop skippedTopCount
    let kept := afterSkip.filter fun a => matchesArticle toView a rules
    { articles := kept
      skippedTopCount := skippedTopCount
      ruleFilteredCount := afterSkip.length - kept.length
      filteredOutCount := skippedTopCount + (afterSkip.length - kept.length)
      appliedRules := compactSourceRules rules }
  else
    { articles := articles
      skippedTopCount := 0
      ruleFilteredCount := 0
      filteredOutCount := 0
      appliedRules := none }

/-! ## Scraper data model (scraper.ts) -/

def MAX_ARTICLES : Nat := 50

structure FeedArticle where
  title : String
  url : String
  description : Option String := none
  publishedAt : Option String := none
  author : Option String := none
deriving DecidableEq, Repr

structure NormalizedFeed where
  title : String
  description : String
  articles : List FeedArticle
deriving DecidableEq, Repr

/-- The result of a successful `new URL(value)` call, restricted to the
fields the scraper reads. -/
structure Url where
  protocol : String
  hostname : String
  pathname : String
deriving DecidableEq, Repr

/-- Outcome of the axios GET in `fetchHtml`: either the promise rejected
(network error, timeout, status outside 200..399), or a response arrived with
a content-type header (`""` when missing) and a body that may or may not be a
string. -/
inductive FetchOutcome where
  | failed
  | response (contentType : String) (data : Option String)
deriving DecidableEq, Repr

/-- A `<link href=...>` element as read by `detectFeedLinks`: the `rel` and
`type` attributes default to `""` via `?? ""`; `href` is present because the
selector is `link[href]` (possibly `""`). -/
structure LinkTag where
  rel : String := ""
  type : String := ""
  href : String := ""
deriving DecidableEq, Repr

/-- The per-element cheerio query results shared by `extractFromContainers`
and `extractFromLinksByPattern` (description, date and author mining).  An
empty cheerio selection answers `""` for `.text()` and `undefined` for
`.attr(...)`, which the defaults reproduce. -/
structure ElementContext where
  descText : String := ""
  timeDatetimeAttr : Option String := none
  anyDatetimeAttr : Option String := none
  timeText : String := ""
  authorRelText : String := ""
  authorClassText : String := ""
deriving DecidableEq, Repr

/-- One container matched by the Strategy A selector, as seen through the
cheerio queries the code performs on it. -/
structure ContainerEl where
  linkHref : Option String := none
  linkText : String := ""
  headingText : String := ""
  ctx : ElementContext := {}
deriving DecidableEq, Repr

/-- One `a[href]` anchor for Strategy B, with the queries on its closest
`article, li, div, section` ancestor. -/
structure AnchorEl where
  href : String := ""
  text : String := ""
  ctx : ElementContext := {}
deriving DecidableEq, Repr

/-- The parsed page (`cheerio.load(html)`) restricted to the queries the
scraper makes. -/
structure Dom where
  linkTags : List LinkTag := []
  ogSiteName : Option String := none
  metaDescription : Option String := none
  titleText : String := ""
  containers : List ContainerEl := []
  anchors : List AnchorEl := []
deriving DecidableEq, Repr

/-- A raw author value inside a feed entry, as the cases
`parseExtractorAuthor` distinguishes: absent/falsy, a string, an object with
an optional string `name` field, or some other truthy value. -/
inductive JsAuthorVal where
  | absent
  | str (s : String)
  | objNamed (name : Option String)
  | otherTruthy
deriving DecidableEq, Repr

/-- A raw feed entry record: the string-ish fields `parseExtractorEntry`
reads (each possibly absent), plus the author fields. -/
structure RawEntry where
  title : Option String := none
  summary : Option String := none
  contentSnippet : Option String := none
  link : Option String := none
  url : Option String := none
  id : Option String := none
  description : Option String := none
  content : Option String := none
  published : Option String := none
  pubDate : Option String := none
  isoDate : Option String := none
  publishedAt : Option String := none
  author : JsAuthorVal := .absent
  authors : Option (List JsAuthorVal) := none
deriving DecidableEq, Repr

/-- A list element of `entries`/`items` may fail the
`typeof entry === "object"` test. -/
inductive RawEntryVal where
  | nonObject
  | obj (e : RawEntry)
deriving DecidableEq, Repr

/-- What the feed-extractor library returned for one candidate URL:
`entries`/`items` are `some` exactly when `Array.isArray` holds. -/
structure Extracted where
  entries : Option (List RawEntryVal) := none
  items : Option (List RawEntryVal) := none
  title : Option String := none
  description : Option String := none
deriving DecidableEq, Repr

/-- The host-environment collaborators of the scraper: URL parsing and
resolution, date parsing (returning the ISO form, `none` on an invalid
date), the clock, the HTTP fetch, the HTML parse, and the optional
feed-extractor library (`pickExtractor`).  A per-call extractor result of
`none` covers a rejected promise as well as a null / non-object value. -/
structure JsEnv where
  parseUrl : String → Option Url
  resolveUrl : String → String → Option String
  parseDate : String → Option String
  now : String
  currentYear : Nat
  fetch : String → FetchOutcome
  cheerio : String → Dom
  extractor : Option (String → Option Extracted)

/-! ## Scraper helpers -/

/-- `isHttpUrl`: `new URL(value)` succeeds and the protocol is http or https. -/
def isHttpUrl (env : JsEnv) (value : String) : Bool :=
  match env.parseUrl value with
  | none => false
  | some u => u.protocol == "http:" || u.protocol == "https:"

/-- `toAbsoluteUrl`: falsy candidates give `null`; otherwise resolve against
the base URL, `null` when the URL constructor throws. -/
def toAbsoluteUrl (env : JsEnv) (baseUrl : String) (candidate : Option String) :
    Option String :=
  match candidate with
  | none => none
  | some c => if c = "" then none else env.resolveUrl baseUrl c

/-- `normalizeDate`: falsy input gives `undefined`; otherwise parse, and give
`undefined` when the date is invalid. -/
def normalizeDate (env : JsEnv) (value : Option String) : Option String :=
  match value with
  | none => none
  | some s => if s = "" then none else env.parseDate s

/-- `uniqueArticles` interior loop: a `Map` keyed by URL keeps the first
article seen for each URL, in insertion order. -/
def uniqueArticlesGo (seen : List String) : List FeedArticle → List FeedArticle
  | [] => []
  | a :: rest =>
    if a.url ∈ seen then uniqueArticlesGo seen rest
    else a :: uniqueArticlesGo (a.url :: seen) rest

/-- `uniqueArticles`: deduplicate by URL (first occurrence wins) and cap at
`MAX_ARTICLES`. -/
def uniqueArticles (articles : List FeedArticle) : List FeedArticle :=
  (uniqueArticlesGo [] articles).take MAX_ARTICLES

/-- The content-type test of `fetchHtml`
(`/text\/html|application\/xhtml\+xml/i`). -/
def isHtmlContentType (ct : String) : Bool :=
  jsIncludes (jsToLower ct) "text/html" || jsIncludes (jsToLower ct) "application/xhtml+xml"

inductive ScrapeError where
  | invalidUrl
  | invalidProtocol
  | fetchFailed
  | notHtml
  | fetchNotString
  | noArticles
  | urlConstructError
deriving DecidableEq, Repr

/-- `fetchHtml`: perform the GET, reject a non-HTML content-type (when the
header is present) and a non-string body. -/
def fetchHtml (env : JsEnv) (url : String) : Except ScrapeError String :=
  match env.fetch url with
  | .failed => .error .fetchFailed
  | .response contentType data =>
    if contentType != "" && !(isHtmlContentType contentType) then .error .notHtml
    else
      match data with
      | none => .error .fetchNotString
      | some s => .ok s

/-! ## Feed Discovery -/

/-- The per-tag body of the `detectFeedLinks` loop: `rel` must mention
`alternate`, `type` must match `/(rss|atom|xml)/i`, and the resolved href
must be an http(s) URL. -/
def feedLinkCandidate (env : JsEnv) (sourceUrl : String) (tag : LinkTag) :
    Option String :=
  if !(jsIncludes (jsToLower tag.rel) "alternate") then none
  else if !(jsIncludes (jsToLower tag.type) "rss" || jsIncludes (jsToLower tag.type) "atom" ||
            jsIncludes (jsToLower tag.type) "xml") then none
  else
    match toAbsoluteUrl env sourceUrl (some tag.href) with
    | none => none
    | some u => if u != "" && isHttpUrl env u then some u else none

/-- `detectFeedLinks`: collect candidates into a `Set` (first-occurrence
order) and keep at most 10. -/
def detectFeedLinks (env : JsEnv) (dom : Dom) (sourceUrl : String) : List String :=
  (dedupFirst (dom.linkTags.filterMap (feedLinkCandidate env sourceUrl))).take 10

/-- `parseExtractorAuthor`: a falsy value gives `undefined`; a string or an
object with a string `name` is cleaned, empty results giving `undefined`. -/
def parseExtractorAuthor : JsAuthorVal → Option String
  | .absent => none
  | .str s =>
    if s = "" then none
    else
      let value := cleanText (some s)
      if value = "" then none else some value
  | .objNamed name =>
    match name with
    | some n =>
      let value := cleanText (some n)
      if value = "" then none else some value
    | none => none
  | .otherTruthy => none

/-- `parseExtractorEntry`: map one raw entry to an article, or `null`. -/
def parseExtractorEntry (env : JsEnv) : RawEntryVal → Option FeedArticle
  | .nonObject => none
  | .obj e =>
    let title := cleanText ((e.title.orElse fun _ => e.summary).orElse fun _ => e.contentSnippet)
    let urlRaw := (e.link.orElse fun _ => e.url).orElse fun _ => e.id
    match urlRaw with
    | none => none
    | some u =>
      if title = "" then none
      else if u = "" then none
      else if !(isHttpUrl env u) then none
      else
        let description := cleanText
          (((e.description.orElse fun _ => e.summary).orElse fun _ => e.content).orElse
            fun _ => e.contentSnippet)
        let publishedAt := normalizeDate env
          (((e.published.orElse fun _ => e.pubDate).orElse fun _ => e.isoDate).orElse
            fun _ => e.publishedAt)
        let author0 := parseExtractorAuthor e.author
        let author :=
          match author0 with
          | some a => some a
          | none =>
            match e.authors with
            | some (first :: _) => parseExtractorAuthor first
            | _ => none
        some { title := title, url := u
               description := if description = "" then none else some description
               publishedAt := publishedAt, author := author }

/-- `extracted.entries` when it is an array, else `extracted.items` when it
is an array, else `[]`. -/
def rawEntriesOf (ext : Extracted) : List RawEntryVal :=
  match ext.entries with
  | some l => l
  | none => ext.items.getD []

/-- The normalized article list one candidate feed URL yields (empty when the
extractor rejected or returned a non-object). -/
def candidateArticles (env : JsEnv) (extract : String → Option Extracted)
    (link : String) : List FeedArticle :=
  match extract link with
  | none => []
  | some ext => uniqueArticles ((rawEntriesOf ext).filterMap (parseExtractorEntry env))

/-- The candidate loop of `tryAutoDetectFeeds`.  A candidate is skipped when
the extractor fails, when no normalized entry survives, or when the title
fallback `new URL(sourceUrl).hostname` throws (the loop body is wrapped in
try/catch).  Note the fallback chain short-circuits: the URL is only
constructed when both the parsed title and the og:site_name meta are blank. -/
def autoDetectGo (env : JsEnv) (dom : Dom) (sourceUrl : String)
    (extract : String → Option Extracted) : List String → Option NormalizedFeed
  | [] => none
  | link :: rest =>
    match extract link with
    | none => autoDetectGo env dom sourceUrl extract rest
    | some ext =>
      let normalizedEntries :=
        uniqueArticles ((rawEntriesOf ext).filterMap (parseExtractorEntry env))
      if normalizedEntries.length = 0 then autoDetectGo env dom sourceUrl extract rest
      else
        let t1 := cleanText ext.title
        let t2 := cleanText dom.ogSiteName
        match (if t1 ≠ "" then some t1
               else if t2 ≠ "" then some t2
               else (env.parseUrl sourceUrl).map fun u => u.hostname) with
        | none => autoDetectGo env dom sourceUrl extract rest
        | some title =>
          let d1 := cleanText ext.description
          let d2 := cleanText dom.metaDescription
          let description :=
            if d1 ≠ "" then d1
            else if d2 ≠ "" then d2
            else title ++ " の自動生成フィード"
          some { title := title, description := description, articles := normalizedEntries }

/-- `tryAutoDetectFeeds`: give up immediately without a feed-parsing library
or without candidates, otherwise probe the candidates in order. -/
def tryAutoDetectFeeds (env : JsEnv) (dom : Dom) (sourceUrl : String) :
    Option NormalizedFeed :=
  let feedLinks := detectFeedLinks env dom sourceUrl
  match env.extractor with
  | none => none
  | some extract =>
    if feedLinks.length = 0 then none
    else autoDetectGo env dom sourceUrl extract feedLinks

/-! ## Heuristic Extractor -/

/-- `extractDateFromElement`.  The `??` chain stops at
`element.find("time").first().text()` because `.text()` always returns a
string, so the final `.date, .published, [itemprop=datePublished]`
alternative of the source is unreachable and has no counterpart here. -/
def extractDateFromElement (env : JsEnv) (e : ElementContext) : Option String :=
  let raw := (e.timeDatetimeAttr.orElse fun _ => e.anyDatetimeAttr).getD e.timeText
  let timeValue := cleanText (some raw)
  normalizeDate env (if timeValue = "" then none else some timeValue)

/-- `extractAuthorFromElement` (`relText || classText`, cleaned,
`"" → undefined`). -/
def extractAuthorFromElement (e : ElementContext) : Option String :=
  let author := cleanText (some (if e.authorRelText ≠ "" then e.authorRelText
                                 else e.authorClassText))
  if author = "" then none else some author

/-- The body of the Strategy A container loop: resolve the first link, demand
http(s), take the heading text (falling back to the link text) as the title,
and mine description / date / author. -/
def containerToArticle (env : JsEnv) (sourceUrl : String) (c : ContainerEl) :
    Option FeedArticle :=
  match toAbsoluteUrl env sourceUrl c.linkHref with
  | none => none
  | some articleUrl =>
    if articleUrl = "" then none
    else if !(isHttpUrl env articleUrl) then none
    else
      let t1 := cleanText (some c.headingText)
      let title := if t1 ≠ "" then t1 else cleanText (some c.linkText)
      if title = "" then none
      else
        let description := cleanText (some c.ctx.descText)
        some { title := title, url := articleUrl
               description := if description = "" then none else some description
               publishedAt := extractDateFromElement env c.ctx
               author := extractAuthorFromElement c.ctx }

/-- The `each` loop of `extractFromContainers`: stop as soon as
`MAX_ARTICLES` candidates were collected. -/
def extractFromContainersGo (env : JsEnv) (sourceUrl : String) :
    List ContainerEl → List FeedArticle → List FeedArticle
  | [], acc => acc
  | c :: rest, acc =>
    if MAX_ARTICLES ≤ acc.length then acc
    else
      match containerToArticle env sourceUrl c with
      | none => extractFromContainersGo env sourceUrl rest acc
      | some a => extractFromContainersGo env sourceUrl rest (acc ++ [a])

/-- Strategy A: structured containers. -/
def extractFromContainers (env : JsEnv) (dom : Dom) (sourceUrl : String) :
    List FeedArticle :=
  uniqueArticles (extractFromContainersGo env sourceUrl dom.containers [])

def EXCLUDED_EXTENSIONS : List String :=
  ["jpg", "jpeg", "png", "gif", "webp", "svg", "pdf", "zip"]

def SECTION_WORDS : List String :=
  ["news", "article", "articles", "post", "posts", "entry", "entries", "blog", "topics"]

/-- `w` is a prefix of `s` and is followed by `/` or the end of the string:
the `(\/|$)` tail of the section-word pattern. -/
def startsThenSlashOrEnd : List Char → List Char → Bool
  | [], [] => true
  | [], c :: _ => c == '/'
  | _ :: _, [] => false
  | a :: w, b :: s => a == b && startsThenSlashOrEnd w s

/-- Scan for the word with a `(^|\/)` boundary on the left; the flag records
whether the current position is such a boundary. -/
def hasDelimWordGo (w : List Char) (atBoundary : Bool) : List Char → Bool
  | [] => atBoundary && startsThenSlashOrEnd w []
  | c :: rest =>
    (atBoundary && startsThenSlashOrEnd w (c :: rest)) || hasDelimWordGo w (c == '/') rest

/-- The first likely-article pattern
`/(^|\/)(news|article|...|topics)(\/|$)/i`, tested case-insensitively. -/
def matchesSectionPattern (candidateUrl : String) : Bool :=
  SECTION_WORDS.any fun w => hasDelimWordGo w.toList true (jsToLower candidateUrl).toList

def headIsDigit : List Char → Bool
  | c :: _ => c.isDigit
  | [] => false

/-- After the month digits of the year-month pattern: the optional
`(\/\d{1,2})?` day group followed by `\/` matches exactly when the next
character is a slash. -/
def afterMonthDigits : List Char → Bool
  | d1 :: r1 =>
    d1.isDigit &&
      (r1.head? == some '/' ||
        (match r1 with
         | d2 :: r2 => d2.isDigit && r2.head? == some '/'
         | [] => false))
  | [] => false

/-- `/\/20\d{2}\/\d{1,2}(\/\d{1,2})?\//` anchored at the current position. -/
def datePath1At : List Char → Bool
  | '/' :: '2' :: '0' :: a :: b :: '/' :: rest => a.isDigit && b.isDigit && afterMonthDigits rest
  | _ => false

/-- `/\/20\d{2}-\d{2}-\d{2}\//` anchored at the current position. -/
def datePath2At : List Char → Bool
  | '/' :: '2' :: '0' :: a :: b :: '-' :: c :: d :: '-' :: e :: f :: '/' :: _ =>
    a.isDigit && b.isDigit && c.isDigit && d.isDigit && e.isDigit && f.isDigit
  | _ => false

/-- `/[?&](p|article_id)=\d+/i` anchored at the current position (on the
lowercased URL). -/
def queryIdAt : List Char → Bool
  | c :: rest =>
    (c == '?' || c == '&') &&
      ((match rest with
        | 'p' :: '=' :: r => headIsDigit r
        | _ => false) ||
       (startsWithL rest "article_id=".toList && headIsDigit (rest.drop 11)))
  | [] => false

/-- Existence of a match: try the anchored test at every suffix. -/
def anySuffix (p : List Char → Bool) : List Char → Bool
  | [] => p []
  | c :: rest => p (c :: rest) || anySuffix p rest

/-- Model of `path.split("/")`. -/
def splitSlashGo (cur : List Char) : List Char → List (List Char)
  | [] => [cur.reverse]
  | c :: rest => if c = '/' then cur.reverse :: splitSlashGo [] rest else splitSlashGo (c :: cur) rest

/-- `path.split("/").filter(Boolean)`. -/
def splitSegs (path : String) : List String :=
  ((splitSlashGo [] path.toList).map fun l => (⟨l⟩ : String)).filter fun s => s ≠ ""

/-- The character class `[a-z0-9-]` under the `i` flag. -/
def isSlugChar (c : Char) : Bool :=
  c.isAlpha || c.isDigit || c == '-'

/-- `/[a-z0-9-]{12,}/i.test(last)`: the string contains a run of at least 12
slug characters. -/
def hasSlugRunGo (count : Nat) : List Char → Bool
  | [] => 12 ≤ count
  | c :: rest =>
    let count2 := if isSlugChar c then count + 1 else 0
    12 ≤ count2 || hasSlugRunGo count2 rest

def hasSlugRun (s : String) : Bool :=
  hasSlugRunGo 0 s.toList

/-- `isLikelyArticleUrl`: same host, non-root non-excluded path, and at least
one likely-article signal (section word, date-shaped segment, numeric article
id query, or a long final slug when the path has two or more segments). -/
def isLikelyArticleUrl (env : JsEnv) (candidateUrl sourceUrl : String) : Bool :=
  match env.parseUrl candidateUrl, env.parseUrl sourceUrl with
  | some parsedCandidate, some parsedSource =>
    if parsedCandidate.hostname != parsedSource.hostname then false
    else
      let path := jsToLower parsedCandidate.pathname
      if path = "" || path = "/" || jsEndsWith path "/tag/" then false
      else if EXCLUDED_EXTENSIONS.any (fun ext => jsEndsWith path ("." ++ ext)) then false
      else if matchesSectionPattern candidateUrl ||
              anySuffix datePath1At candidateUrl.toList ||
              anySuffix datePath2At candidateUrl.toList ||
              anySuffix queryIdAt (jsToLower candidateUrl).toList then true
      else
        let segments := splitSegs path
        if 2 ≤ segments.length then hasSlugRun (segments.getLastD "")
        else false
  | _, _ => false

/-- The body of the Strategy B anchor loop. -/
def anchorToArticle (env : JsEnv) (sourceUrl : String) (a : AnchorEl) :
    Option FeedArticle :=
  match toAbsoluteUrl env sourceUrl (some a.href) with
  | none => none
  | some articleUrl =>
    if articleUrl = "" then none
    else if !(isHttpUrl env articleUrl) then none
    else if !(isLikelyArticleUrl env articleUrl sourceUrl) then none
    else
      let title := cleanText (some a.text)
      if title.length < 4 then none
      else
        let description := cleanText (some a.ctx.descText)
        some { title := title, url := articleUrl
               description := if description = "" then none else some description
               publishedAt := extractDateFromElement env a.ctx
               author := extractAuthorFromElement a.ctx }

/-- The `each` loop of `extractFromLinksByPattern`, with the same cap. -/
def extractFromLinksGo (env : JsEnv) (sourceUrl : String) :
    List AnchorEl → List FeedArticle → List FeedArticle
  | [], acc => acc
  | a :: rest, acc =>
    if MAX_ARTICLES ≤ acc.length then acc
    else
      match anchorToArticle env sourceUrl a with
      | none => extractFromLinksGo env sourceUrl rest acc
      | some art => extractFromLinksGo env sourceUrl rest (acc ++ [art])

/-- Strategy B: link-pattern fallback. -/
def extractFromLinksByPattern (env : JsEnv) (dom : Dom) (sourceUrl : String) :
    List FeedArticle :=
  uniqueArticles (extractFromLinksGo env sourceUrl dom.anchors [])

/-- The article-selection logic of `extractHeuristically`: Strategy A alone
when it yields at least 2 articles, otherwise the deduplicated merge with
Strategy A first. -/
def heuristicArticleSelection (env : JsEnv) (dom : Dom) (sourceUrl : String) :
    List FeedArticle :=
  let containerArticles := extractFromContainers env dom sourceUrl
  if 2 ≤ containerArticles.length then containerArticles
  else uniqueArticles (containerArticles ++ extractFromLinksByPattern env dom sourceUrl)

/-- `extractHeuristically`: resolve the feed title (og:site_name, then the
title tag, then the host name — the URL constructor can throw there), the
description, then select articles and fail when none were found. -/
def extractHeuristically (env : JsEnv) (sourceUrl : String) (dom : Dom) :
    Except ScrapeError NormalizedFeed :=
  let t1 := cleanText dom.ogSiteName
  let t2 := cleanText (some dom.titleText)
  match (if t1 ≠ "" then some t1
         else if t2 ≠ "" then some t2
         else (env.parseUrl sourceUrl).map fun u => u.hostname) with
  | none => .error .urlConstructError
  | some title =>
    let d1 := cleanText dom.metaDescription
    let description := if d1 ≠ "" then d1 else title ++ " の自動生成フィード"
    let articles := heuristicArticleSelection env dom sourceUrl
    if articles.length = 0 then .error .noArticles
    else .ok { title := title, description := description, articles := articles }

/-! ## Feed Synthesizer -/

structure RssAuthor where
  name : String
deriving DecidableEq, Repr

structure RssItem where
  title : String
  id : String
  link : String
  description : String
  date : String
  author : Option (List RssAuthor)
deriving DecidableEq, Repr

structure RssDocument where
  title : String
  description : String
  id : String
  link : String
  language : String
  updated : String
  generator : String
  copyright : String
  items : List RssItem
deriving DecidableEq, Repr

/-- The `feed.addItem` call for one article.  A truthy `publishedAt` is
parsed (`new Date`), invalid dates falling back to the time of synthesis; a
falsy `publishedAt` uses the time of synthesis directly.  A truthy author
becomes a one-element author list. -/
def articleToRssItem (env : JsEnv) (article : FeedArticle) : RssItem :=
  let safeDate :=
    match article.publishedAt with
    | some s => if s = "" then env.now else (env.parseDate s).getD env.now
    | none => env.now
  { title := article.title
    id := article.url
    link := article.url
    description := article.description.getD ""
    date := safeDate
    author :=
      match article.author with
      | some a => if a = "" then none else some [{ name := a }]
      | none => none }

/-- `generateRssXml`, modelled up to serialization: the constructed `Feed`
value (channel fields plus items).  The copyright line constructs
`new URL(sourceUrl)`, which can throw. -/
def generateRssXml (env : JsEnv) (sourceUrl title description : String)
    (articles : List FeedArticle) : Option RssDocument :=
  match env.parseUrl sourceUrl with
  | none => none
  | some u =>
    some { title := title
           description := description
           id := sourceUrl
           link := sourceUrl
           language := "ja"
           updated := env.now
           generator := "create-rss-feed"
           copyright := toString env.currentYear ++ " " ++ u.hostname
           items := articles.map (articleToRssItem env) }

/-! ## Extraction Orchestrator -/

inductive ExtractMethod where
  | rssAutoDetect
  | heuristic
deriving DecidableEq, Repr

structure FeedResult where
  sourceUrl : String
  feedTitle : String
  feedDescription : String
  articles : List FeedArticle
  rssXml : RssDocument
  method : ExtractMethod
deriving DecidableEq, Repr

/-- `extractFeed`: validate the URL (twice, as the source does), fetch,
attempt feed discovery, fall back to the heuristic extractor, synthesize.
The boolean of the pair records whether the HTTP fetch was attempted. -/
def extractFeed (env : JsEnv) (url : String) : Except ScrapeError FeedResult × Bool :=
  if !(isHttpUrl env url) then (.error .invalidUrl, false)
  else
    match env.parseUrl url with
    | none => (.error .urlConstructError, false)
    | some parsed =>
      if parsed.protocol != "http:" && parsed.protocol != "https:" then
        (.error .invalidProtocol, false)
      else
        match fetchHtml env url with
        | .error e => (.error e, true)
        | .ok html =>
          let dom := env.cheerio html
          match tryAutoDetectFeeds env dom url with
          | some autoDetected =>
            match generateRssXml env url autoDetected.title autoDetected.description
                autoDetected.articles with
            | none => (.error .urlConstructError, true)
            | some doc =>
              (.ok { sourceUrl := url
                     feedTitle := autoDetected.title
                     feedDescription := autoDetected.description
                     articles := autoDetected.articles
                     rssXml := doc
                     method := .rssAutoDetect }, true)
          | none =>
            match extractHeuristically env url dom with
            | .error e => (.error e, true)
            | .ok heuristic =>
              match generateRssXml env url heuristic.title heuristic.description
                  heuristic.articles with
              | none => (.error .urlConstructError, true)
              | some doc =>
                (.ok { sourceUrl := url
                       feedTitle := heuristic.title
                       feedDescription := heuristic.description
                       articles := heuristic.articles
                       rssXml := doc
                       method := .heuristic }, true)

/-! ## Rule-applying orchestrator (current scraper interface)

The repository ships callers of a rule-applying `extractFeed(url, options)`
— the `generate-feed` IPC handler passes `{ rules }` and the renderer reads
`originalArticleCount`, `skippedTopCount`, `ruleFilteredCount`,
`filteredOutCount` and `appliedRules` off the result — but that version of
scraper.ts itself is not among the provided sources; the shipped scraper.ts
is an earlier rule-free revision.  The definitions below model the missing
orchestrator stage from the spec. -/

/-- The structural view of a `FeedArticle` as a rule-applicable article. -/
def feedArticleView (a : FeedArticle) : RuleView :=
  { title := some a.title, url := some a.url
    description := a.description, publishedAt := a.publishedAt }

/-- The current `FeedResult` shape: filtered articles, the pre-filter count,
and the rule-engine statistics. -/
structure FeedResultV2 where
  sourceUrl : String
  feedTitle : String
  feedDescription : String
  articles : List FeedArticle
  originalArticleCount : Nat
  skippedTopCount : Nat
  ruleFilteredCount : Nat
  filteredOutCount : Nat
  appliedRules : Option CompactSourceRules
  rssXml : RssDocument
  method : ExtractMethod
deriving DecidableEq, Repr

/-- Modelled from the spec: the rule-applying `extractFeed(url, options?)` of
the current scraper, which is missing from the provided sources (only its
callers and the spec describe it).  Per spec section 4.5: validate URL →
fetch → discovery, falling back to the heuristic extractor → record method →
apply the Rule Engine with the caller-supplied or externally-loaded rules →
synthesize the document from the filtered article list and the unfiltered
feed title/description → return the result with `originalArticleCount`
(pre-filter) and the rule-engine statistics. -/
def extractFeedWithRules (env : JsEnv) (url : String) (rules : Option SourceRules) :
    Except ScrapeError FeedResultV2 × Bool :=
  if !(isHttpUrl env url) then (.error .invalidUrl, false)
  else
    match env.parseUrl url with
    | none => (.error .urlConstructError, false)
    | some parsed =>
      if parsed.protocol != "http:" && parsed.protocol != "https:" then
        (.error .invalidProtocol, false)
      else
        match fetchHtml env url with
        | .error e => (.error e, true)
        | .ok html =>
          let dom := env.cheerio html
          let extracted : Except ScrapeError (NormalizedFeed × ExtractMethod) :=
            match tryAutoDetectFeeds env dom url with
            | some autoDetected => .ok (autoDetected, .rssAutoDetect)
            | none =>
              match extractHeuristically env url dom with
              | .error e => .error e
              | .ok heuristic => .ok (heuristic, .heuristic)
          match extracted with
          | .error e => (.error e, true)
          | .ok (nf, method) =>
            let applied := applySourceRules feedArticleView nf.articles rules
            match generateRssXml env url nf.title nf.description applied.articles with
            | none => (.error .urlConstructError, true)
            | some doc =>
              (.ok { sourceUrl := url
                     feedTitle := nf.title
                     feedDescription := nf.description
                     articles := applied.articles
                     originalArticleCount := nf.articles.length
                     skippedTopCount := applied.skippedTopCount
                     ruleFilteredCount := applied.ruleFilteredCount
                     filteredOutCount := applied.filteredOutCount
                     appliedRules := applied.appliedRules
                     rssXml := doc
                     method := method }, true)

/-! ## Concrete fixtures used by the witness theorems -/

def wUrl : String := "https://ex.com/"

def wParseUrl (s : String) : Option Url :=
  if s = "https://ex.com/" then some { protocol := "https:", hostname := "ex.com", pathname := "/" }
  else if s = "https://ex.com/a1" then
    some { protocol := "https:", hostname := "ex.com", pathname := "/a1" }
  else if s = "https://ex.com/a2" then
    some { protocol := "https:", hostname := "ex.com", pathname := "/a2" }
  else if s = "https://ex.com/feed" then
    some { protocol := "https:", hostname := "ex.com", pathname := "/feed" }
  else none

def wParseDate (s : String) : Option String :=
  if s = "2024-01-02" then some "2024-01-02T00:00:00.000Z" else none

/-- A page with two structured article containers. -/
def wDomContainers : Dom :=
  { containers :=
      [ { linkHref := some "https://ex.com/a1", headingText := "A one" }
      , { linkHref := some "https://ex.com/a2", headingText := "A two" } ] }

/-- A page advertising one feed link. -/
def wDomFeed : Dom :=
  { linkTags := [{ rel := "alternate", type := "application/rss+xml",
                   href := "https://ex.com/feed" }] }

def wExtract (link : String) : Option Extracted :=
  if link = "https://ex.com/feed" then
    some { entries := some [.obj { title := some "E one", link := some "https://ex.com/a1" }]
           title := some "Feed T", description := some "Feed D" }
  else none

/-- Environment whose page drives the heuristic path with two containers. -/
def wEnv : JsEnv :=
  { parseUrl := wParseUrl
    resolveUrl := fun _ c => some c
    parseDate := wParseDate
    now := "NOW"
    currentYear := 2024
    fetch := fun _ => .response "text/html" (some "<html>")
    cheerio := fun _ => wDomContainers
    extractor := none }

/-- Environment whose page is empty: discovery finds nothing and both
heuristic strategies yield zero articles. -/
def wEnvEmpty : JsEnv :=
  { wEnv with cheerio := fun _ => {} }

/-- Environment whose page advertises a working feed. -/
def wEnvFeed : JsEnv :=
  { wEnv with cheerio := fun _ => wDomFeed, extractor := some wExtract }

def wA1 : FeedArticle := { title := "A one", url := "https://ex.com/a1" }

def wA2 : FeedArticle := { title := "A two", url := "https://ex.com/a2" }

/-- Ten distinct articles, for the skip-count witness. -/
def wTen : List FeedArticle :=
  (List.range 10).map fun i =>
    { title := "t" ++ toString i, url := "https://ex.com/p" ++ toString i }

/-- The document the synthesizer produces for the two-container page. -/
def wDoc : RssDocument :=
  { title := "ex.com"
    description := "ex.com の自動生成フィード"
    id := wUrl
    link := wUrl
    language := "ja"
    updated := "NOW"
    generator := "create-rss-feed"
    copyright := "2024 ex.com"
    items :=
      [ { title := "A one", id := "https://ex.com/a1", link := "https://ex.com/a1",
          description := "", date := "NOW", author := none }
      , { title := "A two", id := "https://ex.com/a2", link := "https://ex.com/a2",
          description := "", date := "NOW", author := none } ] }

/-- The full extraction result on the two-container page. -/
def wFeedResult : FeedResult :=
  { sourceUrl := wUrl
    feedTitle := "ex.com"
    feedDescription := "ex.com の自動生成フィード"
    articles := [wA1, wA2]
    rssXml := wDoc
    method := .heuristic }

/-- The rule-applying extraction result on the two-container page with a
`titleExcludes` rule matching the second article. -/
def wR2 : FeedResultV2 :=
  { sourceUrl := wUrl
    feedTitle := "ex.com"
    feedDescription := "ex.com の自動生成フィード"
    articles := [wA1]
    originalArticleCount := 2
    skippedTopCount := 0
    ruleFilteredCount := 1
    filteredOutCount := 1
    appliedRules := some { titleExcludes := some ["two"] }
    rssXml :=
      { title := "ex.com"
        description := "ex.com の自動生成フィード"
        id := wUrl
        link := wUrl
        language := "ja"
        updated := "NOW"
        generator := "create-rss-feed"
        copyright := "2024 ex.com"
        items :=
          [ { title := "A one", id := "https://ex.com/a1", link := "https://ex.com/a1",
              description := "", date := "NOW", author := none } ] }
    method := .heuristic }

/-- An article exercising every synthesizer field. -/
def wC9Article : FeedArticle :=
  { title := "X", url := "https://ex.com/a1", description := some "dd",
    publishedAt := some "2024-01-02", author := some "Au" }

/-- The document the synthesizer produces for `[wC9Article]`. -/
def wC9Doc : RssDocument :=
  { title := "T"
    description := "D"
    id := wUrl
    link := wUrl
    language := "ja"
    updated := "NOW"
    generator := "create-rss-feed"
    copyright := "2024 ex.com"
    items :=
      [ { title := "X", id := "https://ex.com/a1", link := "https://ex.com/a1",
          description := "dd", date := "2024-01-02T00:00:00.000Z",
          author := some [{ name := "Au" }] } ] }

/-! ## Shared lemmas -/

theorem length_filter_add_length_filter_not {α : Type} (p : α → Bool) (l : List α) :
    (l.filter p).length + (l.filter fun a => !(p a)).length = l.length := by
  induction l with
  | nil => rfl
  | cons a rest ih =>
    by_cases h : p a = true
    · simp [List.filter, h, ← ih]; omega
    · simp only [Bool.not_eq_true] at h
      simp [List.filter, h, ← ih]; omega

theorem sub_filter_length {α : Type} (p : α → Bool) (l : List α) :
    l.length - (l.filter p).length = (l.filter fun a => !(p a)).length := by
  have := length_filter_add_length_filter_not p l
  omega

theorem applySourceRules_inactive {T : Type} (toView : T → RuleView) (articles : List T)
    (rulesInput : Option SourceRules)
    (h : hasActiveRules (normalizeSourceRules rulesInput) = false) :
    applySourceRules toView articles rulesInput =
      { articles := articles, skippedTopCount := 0, ruleFilteredCount := 0,
        filteredOutCount := 0, appliedRules := none } := by
  unfold applySourceRules
  simp [h]

theorem applySourceRules_active {T : Type} (toView : T → RuleView) (articles : List T)
    (rulesInput : Option SourceRules)
    (h : hasActiveRules (normalizeSourceRules rulesInput) = true) :
    applySourceRules toView articles rulesInput =
      { articles := (articles.drop
            (min (normalizeSourceRules rulesInput).skipTopCount articles.length)).filter
            (fun a => matchesArticle toView a (normalizeSourceRules rulesInput))
        skippedTopCount := min (normalizeSourceRules rulesInput).skipTopCount articles.length
        ruleFilteredCount := (articles.drop
            (min (normalizeSourceRules rulesInput).skipTopCount articles.length)).length -
          ((articles.drop
            (min (normalizeSourceRules rulesInput).skipTopCount articles.length)).filter
            (fun a => matchesArticle toView a (normalizeSourceRules rulesInput))).length
        filteredOutCount := min (normalizeSourceRules rulesInput).skipTopCount articles.length +
          ((articles.drop
            (min (normalizeSourceRules rulesInput).skipTopCount articles.length)).length -
          ((articles.drop
            (min (normalizeSourceRules rulesInput).skipTopCount articles.length)).filter
            (fun a => matchesArticle toView a (normalizeSourceRules rulesInput))).length)
        appliedRules := compactSourceRules (normalizeSourceRules rulesInput) } := by
  unfold applySourceRules
  simp [h]

theorem matchesArticle_no_constraints {T : Type} (toView : T → RuleView) (a : T) (n : Nat) :
    matchesArticle toView a
      { titleIncludes := [], titleExcludes := [], urlIncludes := [], urlExcludes := [],
        descriptionRequired := false, publishedAtRequired := false, skipTopCount := n }
      = true := by
  simp [matchesArticle, includesAll, includesAny]

theorem uniqueArticlesGo_mem_spec :
    ∀ (l : List FeedArticle) (seen : List String) (a : FeedArticle),
      a ∈ uniqueArticlesGo seen l →
      a.url ∉ seen ∧ l.find? (fun b => b.url == a.url) = some a := by
  intro l
  induction l with
  | nil => intro seen a h; simp [uniqueArticlesGo] at h
  | cons x xs ih =>
    intro seen a h
    unfold uniqueArticlesGo at h
    by_cases hx : x.url ∈ seen
    · rw [if_pos hx] at h
      obtain ⟨hns, hf⟩ := ih seen a h
      have hne : (x.url == a.url) = false := by
        refine beq_eq_false_iff_ne.mpr ?_
        intro e
        exact hns (e ▸ hx)
      exact ⟨hns, by simp [List.find?, hne, hf]⟩
    · rw [if_neg hx] at h
      rcases List.mem_cons.mp h with rfl | h2
      · exact ⟨hx, by simp [List.find?]⟩
      · obtain ⟨hns, hf⟩ := ih (x.url :: seen) a h2
        have hne : (x.url == a.url) = false := by
          refine beq_eq_false_iff_ne.mpr ?_
          intro e
          exact hns (by simp [e])
        refine ⟨fun hs => hns (List.mem_cons_of_mem _ hs), ?_⟩
        simp [List.find?, hne, hf]

theorem uniqueArticlesGo_nodup :
    ∀ (l : List FeedArticle) (seen : List String),
      ((uniqueArticlesGo seen l).map (fun a => a.url)).Nodup := by
  intro l
  induction l with
  | nil => intro seen; simp [uniqueArticlesGo]
  | cons x xs ih =>
    intro seen
    unfold uniqueArticlesGo
    by_cases hx : x.url ∈ seen
    · rw [if_pos hx]; exact ih seen
    · rw [if_neg hx]
      simp only [List.map_cons, List.nodup_cons]
      refine ⟨?_, ih (x.url :: seen)⟩
      intro hmem
      obtain ⟨a, ha, hurl⟩ := List.mem_map.mp hmem
      exact (uniqueArticlesGo_mem_spec xs (x.url :: seen) a ha).1 (by simp [hurl])

theorem uniqueArticles_length_le (l : List FeedArticle) :
    (uniqueArticles l).length ≤ MAX_ARTICLES :=
  List.length_take_le _ _

theorem uniqueArticles_nodup (l : List FeedArticle) :
    ((uniqueArticles l).map (fun a => a.url)).Nodup := by
  refine List.Nodup.sublist ?_ (uniqueArticlesGo_nodup l [])
  exact List.Sublist.map _ (List.take_sublist _ _)

theorem uniqueArticles_find (l : List FeedArticle) (a : FeedArticle)
    (h : a ∈ uniqueArticles l) :
    l.find? (fun b => b.url == a.url) = some a :=
  (uniqueArticlesGo_mem_spec l [] a ((List.take_sublist _ _).subset h)).2

/-- Whatever branch `extractHeuristically` takes, its article selection is a
`uniqueArticles` image. -/
theorem heuristicArticleSelection_pool (env : JsEnv) (dom : Dom) (sourceUrl : String) :
    ∃ pool, heuristicArticleSelection env dom sourceUrl = uniqueArticles pool := by
  by_cases h2 : 2 ≤ (extractFromContainers env dom sourceUrl).length
  · refine ⟨extractFromContainersGo env sourceUrl dom.containers [], ?_⟩
    simp only [heuristicArticleSelection, if_pos h2]
    rfl
  · refine ⟨extractFromContainers env dom sourceUrl
      ++ extractFromLinksByPattern env dom sourceUrl, ?_⟩
    simp only [heuristicArticleSelection, if_neg h2]

/-- A successful heuristic extraction returns exactly the selected articles,
and they are non-empty. -/
theorem extractHeuristically_ok (env : JsEnv) (sourceUrl : String) (dom : Dom)
    (nf : NormalizedFeed) (h : extractHeuristically env sourceUrl dom = .ok nf) :
    nf.articles = heuristicArticleSelection env dom sourceUrl ∧
    heuristicArticleSelection env dom sourceUrl ≠ [] := by
  simp only [extractHeuristically] at h
  split at h
  · cases h
  · split at h
    · cases h
    · rename_i hlen
      cases h
      refine ⟨rfl, ?_⟩
      intro hnil
      rw [hnil] at hlen
      simp at hlen

/-- Any auto-detected feed carries a `uniqueArticles` image. -/
theorem autoDetectGo_pool (env : JsEnv) (dom : Dom) (sourceUrl : String)
    (extract : String → Option Extracted) :
    ∀ (links : List String) (nf : NormalizedFeed),
      autoDetectGo env dom sourceUrl extract links = some nf →
      ∃ pool, nf.articles = uniqueArticles pool := by
  intro links
  induction links with
  | nil => intro nf h; simp [autoDetectGo] at h
  | cons link rest ih =>
    intro nf h
    simp only [autoDetectGo] at h
    cases hx : extract link with
    | none =>
      rw [hx] at h
      exact ih nf h
    | some ext =>
      rw [hx] at h
      simp only at h
      split at h
      · exact ih nf h
      · split at h
        · exact ih nf h
        · cases h
          exact ⟨_, rfl⟩

theorem tryAutoDetectFeeds_pool (env : JsEnv) (dom : Dom) (sourceUrl : String)
    (nf : NormalizedFeed) (h : tryAutoDetectFeeds env dom sourceUrl = some nf) :
    ∃ pool, nf.articles = uniqueArticles pool := by
  simp only [tryAutoDetectFeeds] at h
  split at h
  · cases h
  · split at h
    · cases h
    · exact autoDetectGo_pool env dom sourceUrl _ _ nf h

theorem uniqueArticles_nil : uniqueArticles [] = [] := rfl

/-- Evaluation of `extractHeuristically` when the source URL parses: the
title chain cannot throw, so the outcome is decided by the article
selection. -/
theorem extractHeuristically_eval (env : JsEnv) (url : String) (dom : Dom)
    (parsed : Url) (hp : env.parseUrl url = some parsed) :
    (heuristicArticleSelection env dom url = [] →
      extractHeuristically env url dom = .error .noArticles) ∧
    (heuristicArticleSelection env dom url ≠ [] →
      ∃ nf, extractHeuristically env url dom = .ok nf ∧
        nf.articles = heuristicArticleSelection env dom url) := by
  have htitle : ∃ t, (if cleanText dom.ogSiteName ≠ "" then some (cleanText dom.ogSiteName)
      else if cleanText (some dom.titleText) ≠ "" then some (cleanText (some dom.titleText))
      else (env.parseUrl url).map fun u => u.hostname) = some t := by
    by_cases h1 : cleanText dom.ogSiteName = ""
    · by_cases h2 : cleanText (some dom.titleText) = ""
      · exact ⟨parsed.hostname, by simp [h1, h2, hp]⟩
      · exact ⟨cleanText (some dom.titleText), by simp [h1, h2]⟩
    · exact ⟨cleanText dom.ogSiteName, by simp [h1]⟩
  obtain ⟨t, ht⟩ := htitle
  constructor
  · intro hsel
    simp only [extractHeuristically, ht, hsel]
    simp
  · intro hsel
    have hlen : ¬ (heuristicArticleSelection env dom url).length = 0 := by
      intro h0
      exact hsel (List.length_eq_zero.mp h0)
    refine ⟨{ title := t
              description :=
                if cleanText dom.metaDescription ≠ "" then cleanText dom.metaDescription
                else t ++ " の自動生成フィード"
              articles := heuristicArticleSelection env dom url }, ?_, rfl⟩
    simp only [extractHeuristically, ht, if_neg hlen]

/-- `extractFeed` success implies the articles come from one of the two
extraction paths, each a `uniqueArticles` image. -/
theorem extractFeed_ok_pool (env : JsEnv) (url : String) (r : FeedResult) (fetched : Bool)
    (h : extractFeed env url = (.ok r, fetched)) :
    ∃ pool, r.articles = uniqueArticles pool := by
  cases hhttp : isHttpUrl env url with
  | false => simp [extractFeed, hhttp] at h
  | true =>
    cases hp : env.parseUrl url with
    | none => simp [isHttpUrl, hp] at hhttp
    | some parsed =>
      have hproto : (parsed.protocol == "http:" || parsed.protocol == "https:") = true := by
        simpa [isHttpUrl, hp] using hhttp
      have hproto2 : (parsed.protocol != "http:" && parsed.protocol != "https:") = false := by
        cases h1 : parsed.protocol == "http:" <;> simp_all [bne]
      cases hf : fetchHtml env url with
      | error e => simp [extractFeed, hhttp, hp, hproto2, hf] at h
      | ok html =>
        cases hauto : tryAutoDetectFeeds env (env.cheerio html) url with
        | some nf =>
          cases hgen : generateRssXml env url nf.title nf.description nf.articles with
          | none => simp [extractFeed, hhttp, hp, hproto2, hf, hauto, hgen] at h
          | some doc =>
            simp only [extractFeed, hhttp, hp, hproto2, hf, hauto, hgen, Bool.not_true,
              Bool.false_eq_true, if_false, Prod.mk.injEq] at h
            obtain ⟨h1, _⟩ := h
            have h2 : r.articles = nf.articles := by
              cases h1
              rfl
            rw [h2]
            exact tryAutoDetectFeeds_pool env (env.cheerio html) url nf hauto
        | none =>
          cases hheu : extractHeuristically env url (env.cheerio html) with
          | error e => simp [extractFeed, hhttp, hp, hproto2, hf, hauto, hheu] at h
          | ok nf =>
            cases hgen : generateRssXml env url nf.title nf.description nf.articles with
            | none => simp [extractFeed, hhttp, hp, hproto2, hf, hauto, hheu, hgen] at h
            | some doc =>
              simp only [extractFeed, hhttp, hp, hproto2, hf, hauto, hheu, hgen, Bool.not_true,
                Bool.false_eq_true, if_false, Prod.mk.injEq] at h
              obtain ⟨h1, _⟩ := h
              have h2 : r.articles = nf.articles := by
                cases h1
                rfl
              obtain ⟨hart, _⟩ := extractHeuristically_ok env url (env.cheerio html) nf hheu
              obtain ⟨pool, hpool⟩ := heuristicArticleSelection_pool env (env.cheerio html) url
              exact ⟨pool, by rw [h2, hart, hpool]⟩

/-! ## Claim theorems: Rule Engine -/

/-- C3: applying the Rule Engine with a rule set whose normalization has no
active constraint (including the absent rule set) returns the input list
unchanged with all statistics zero. -/
theorem rules_inactive_identity {T : Type} (toView : T → RuleView) (articles : List T)
    (rulesInput : Option SourceRules)
    (h : hasActiveRules (normalizeSourceRules rulesInput) = false) :
    applySourceRules toView articles rulesInput =
      { articles := articles, skippedTopCount := 0, ruleFilteredCount := 0,
        filteredOutCount := 0, appliedRules := none } :=
  applySourceRules_inactive toView articles rulesInput h

theorem rules_inactive_identity_witness :
    hasActiveRules (normalizeSourceRules none) = false ∧
    applySourceRules feedArticleView [wA1, wA2] none =
      { articles := [wA1, wA2], skippedTopCount := 0, ruleFilteredCount := 0,
        filteredOutCount := 0, appliedRules := none } :=
  ⟨by decide, rules_inactive_identity feedArticleView [wA1, wA2] none (by decide)⟩

/-- C4: when the only active constraint is `skipTopCount = N`, the Rule
Engine drops exactly the leading `min N L` articles and filters none of the
remainder. -/
theorem rules_skip_only {T : Type} (toView : T → RuleView) (articles : List T)
    (rulesInput : Option SourceRules) (N : Nat)
    (h : normalizeSourceRules rulesInput =
      { titleIncludes := [], titleExcludes := [], urlIncludes := [], urlExcludes := [],
        descriptionRequired := false, publishedAtRequired := false, skipTopCount := N }) :
    (applySourceRules toView articles rulesInput).articles
        = articles.drop (min N articles.length) ∧
    (applySourceRules toView articles rulesInput).articles.length
        = articles.length - min N articles.length ∧
    (applySourceRules toView articles rulesInput).skippedTopCount = min N articles.length ∧
    (applySourceRules toView articles rulesInput).ruleFilteredCount = 0 := by
  by_cases hact : hasActiveRules (normalizeSourceRules rulesInput) = true
  · have happ := applySourceRules_active toView articles rulesInput hact
    rw [h] at happ
    have hfilter :
        (articles.drop (min N articles.length)).filter
          (fun a => matchesArticle toView a
            { titleIncludes := [], titleExcludes := [], urlIncludes := [], urlExcludes := [],
              descriptionRequired := false, publishedAtRequired := false, skipTopCount := N }) =
        articles.drop (min N articles.length) :=
      List.filter_eq_self.mpr fun a _ => matchesArticle_no_constraints toView a N
    refine ⟨?_, ?_, ?_, ?_⟩
    · rw [happ]; exact hfilter
    · rw [happ]
      show ((articles.drop (min N articles.length)).filter _).length = _
      rw [hfilter]
      exact List.length_drop _ _
    · rw [happ]
    · rw [happ]
      show (articles.drop (min N articles.length)).length
          - ((articles.drop (min N articles.length)).filter _).length = 0
      rw [hfilter]
      exact Nat.sub_self _
  · have hact2 : hasActiveRules (normalizeSourceRules rulesInput) = false := by
      revert hact; cases hasActiveRules (normalizeSourceRules rulesInput) <;> simp
    have hN : N = 0 := by
      rw [h] at hact2
      simp [hasActiveRules] at hact2
      exact hact2
    rw [applySourceRules_inactive toView articles rulesInput hact2]
    subst hN
    simp

theorem rules_skip_only_witness :
    normalizeSourceRules (some { skipTopCount := .finite 4 }) =
      { titleIncludes := [], titleExcludes := [], urlIncludes := [], urlExcludes := [],
        descriptionRequired := false, publishedAtRequired := false, skipTopCount := 4 } ∧
    (applySourceRules feedArticleView wTen (some { skipTopCount := .finite 4 })).articles.length
        = 6 ∧
    (applySourceRules feedArticleView wTen
        (some { skipTopCount := .finite 4 })).ruleFilteredCount = 0 := by
  have h := rules_skip_only feedArticleView wTen (some { skipTopCount := .finite 4 }) 4
    (by decide)
  exact ⟨by decide, by rw [h.2.1]; decide, h.2.2.2⟩

/-- C5: under an active rule set, after the leading skip an article is kept
exactly when it satisfies the case-insensitive include/exclude substring
conditions on title and URL and the presence flags; `ruleFilteredCount`
counts the rejected post-skip articles and `filteredOutCount` is the sum. -/
theorem rules_active_predicate {T : Type} (toView : T → RuleView) (articles : List T)
    (rulesInput : Option SourceRules) (rules : NormalizedSourceRules)
    (hr : normalizeSourceRules rulesInput = rules)
    (h : hasActiveRules rules = true) :
    (applySourceRules toView articles rulesInput).articles
      = (articles.drop (min rules.skipTopCount articles.length)).filter
          (fun a => matchesArticle toView a rules) ∧
    (∀ a : T, matchesArticle toView a rules = true ↔
      ((∀ t ∈ rules.titleIncludes,
          jsIncludes (jsToLower (jsTrim ((toView a).title.getD ""))) (jsToLower t) = true) ∧
       (∀ t ∈ rules.titleExcludes,
          jsIncludes (jsToLower (jsTrim ((toView a).title.getD ""))) (jsToLower t) = false) ∧
       (∀ t ∈ rules.urlIncludes,
          jsIncludes (jsToLower (jsTrim ((toView a).url.getD ""))) (jsToLower t) = true) ∧
       (∀ t ∈ rules.urlExcludes,
          jsIncludes (jsToLower (jsTrim ((toView a).url.getD ""))) (jsToLower t) = false) ∧
       (rules.descriptionRequired = true → isPresent (toView a).description = true) ∧
       (rules.publishedAtRequired = true → isPresent (toView a).publishedAt = true))) ∧
    (applySourceRules toView articles rulesInput).ruleFilteredCount
      = ((articles.drop (min rules.skipTopCount articles.length)).filter
          (fun a => !(matchesArticle toView a rules))).length ∧
    (applySourceRules toView articles rulesInput).filteredOutCount
      = (applySourceRules toView articles rulesInput).skippedTopCount
        + (applySourceRules toView articles rulesInput).ruleFilteredCount := by
  subst hr
  rw [applySourceRules_active toView articles rulesInput h]
  refine ⟨rfl, ?_, ?_, rfl⟩
  · intro a
    simp only [matchesArticle, includesAll, includesAny, Bool.and_eq_true,
      Bool.not_eq_true', List.all_eq_true, List.any_eq_false, Bool.or_eq_true,
      Bool.not_eq_true]
    constructor
    · rintro ⟨⟨⟨⟨⟨h1, h2⟩, h3⟩, h4⟩, h5⟩, h6⟩
      refine ⟨h1, h2, h3, h4, ?_, ?_⟩
      · intro hd; rcases h5 with h5 | h5
        · rw [hd] at h5; cases h5
        · exact h5
      · intro hp; rcases h6 with h6 | h6
        · rw [hp] at h6; cases h6
        · exact h6
    · rintro ⟨h1, h2, h3, h4, h5, h6⟩
      refine ⟨⟨⟨⟨⟨h1, h2⟩, h3⟩, h4⟩, ?_⟩, ?_⟩
      · cases hd : (normalizeSourceRules rulesInput).descriptionRequired
        · exact Or.inl rfl
        · exact Or.inr (h5 hd)
      · cases hp : (normalizeSourceRules rulesInput).publishedAtRequired
        · exact Or.inl rfl
        · exact Or.inr (h6 hp)
  · exact sub_filter_length
      (fun a => matchesArticle toView a (normalizeSourceRules rulesInput))
      (articles.drop (min (normalizeSourceRules rulesInput).skipTopCount articles.length))

theorem rules_active_predicate_witness :
    (applySourceRules feedArticleView [wA1, wA2]
        (some { titleExcludes := .arr [.str "two"] })).articles = [wA1] ∧
    (applySourceRules feedArticleView [wA1, wA2]
        (some { titleExcludes := .arr [.str "two"] })).ruleFilteredCount = 1 ∧
    (applySourceRules feedArticleView [wA1, wA2]
        (some { titleExcludes := .arr [.str "two"] })).filteredOutCount = 1 := by
  have h := rules_active_predicate feedArticleView [wA1, wA2]
    (some { titleExcludes := .arr [.str "two"] })
    (normalizeSourceRules (some { titleExcludes := .arr [.str "two"] })) rfl (by decide)
  refine ⟨?_, ?_, ?_⟩
  · rw [h.1]; decide
  · rw [h.2.2.1]; decide
  · rw [h.2.2.2]
    have h1 := h.2.2.1
    decide

/-- C10: for every article list and every rule input, including malformed
ones, the output article list is an order-preserving subsequence of the
input and the input length equals the output length plus
`filteredOutCount`. -/
theorem rules_output_sublist {T : Type} (toView : T → RuleView) (articles : List T)
    (rulesInput : Option SourceRules) :
    (applySourceRules toView articles rulesInput).articles.Sublist articles ∧
    articles.length = (applySourceRules toView articles rulesInput).articles.length
      + (applySourceRules toView articles rulesInput).filteredOutCount := by
  by_cases h : hasActiveRules (normalizeSourceRules rulesInput) = true
  · have happ := applySourceRules_active toView articles rulesInput h
    constructor
    · rw [happ]
      exact (List.filter_sublist _).trans (List.drop_sublist _ _)
    · have e1 : (applySourceRules toView articles rulesInput).articles.length
          = ((articles.drop
              (min (normalizeSourceRules rulesInput).skipTopCount articles.length)).filter
              (fun a => matchesArticle toView a (normalizeSourceRules rulesInput))).length := by
        rw [happ]
      have e2 : (applySourceRules toView articles rulesInput).filteredOutCount
          = min (normalizeSourceRules rulesInput).skipTopCount articles.length +
            ((articles.drop
              (min (normalizeSourceRules rulesInput).skipTopCount articles.length)).length -
            ((articles.drop
              (min (normalizeSourceRules rulesInput).skipTopCount articles.length)).filter
              (fun a => matchesArticle toView a (normalizeSourceRules rulesInput))).length) := by
        rw [happ]
      have hmin : min (normalizeSourceRules rulesInput).skipTopCount articles.length
          ≤ articles.length := Nat.min_le_right _ _
      have hlen := List.length_drop
        (min (normalizeSourceRules rulesInput).skipTopCount articles.length) articles
      have hfle := List.length_filter_le
        (fun a => matchesArticle toView a (normalizeSourceRules rulesInput))
        (articles.drop (min (normalizeSourceRules rulesInput).skipTopCount articles.length))
      rw [e1, e2]
      omega
  · have h2 : hasActiveRules (normalizeSourceRules rulesInput) = false := by
      revert h; cases hasActiveRules (normalizeSourceRules rulesInput) <;> simp
    rw [applySourceRules_inactive toView articles rulesInput h2]
    exact ⟨List.Sublist.refl _, by simp⟩

/-! ## Claim theorems: orchestrator and extraction paths -/

/-- C1: whenever `extractFeed` succeeds, the returned article list has at
most `MAX_ARTICLES` (50) elements, its URLs are pairwise distinct, and it is
a `uniqueArticles` image of a candidate pool in which each returned article
is the first article bearing its URL (first occurrence wins); this covers
both the feed-discovery path and the heuristic path, which are the only ways
`extractFeed` can succeed. -/
theorem extractFeed_dedup_cap (env : JsEnv) (url : String) (r : FeedResult)
    (fetched : Bool) (h : extractFeed env url = (.ok r, fetched)) :
    r.articles.length ≤ MAX_ARTICLES ∧
    ((r.articles.map fun a => a.url).Nodup) ∧
    ∃ pool, r.articles = uniqueArticles pool ∧
      ∀ a ∈ r.articles, pool.find? (fun b => b.url == a.url) = some a := by
  obtain ⟨pool, hpool⟩ := extractFeed_ok_pool env url r fetched h
  rw [hpool]
  exact ⟨uniqueArticles_length_le pool, uniqueArticles_nodup pool, pool, rfl,
    fun a ha => uniqueArticles_find pool a ha⟩

theorem extractFeed_dedup_cap_witness :
    wFeedResult.articles.length ≤ MAX_ARTICLES ∧
    ((wFeedResult.articles.map fun a => a.url).Nodup) ∧
    ∃ pool, wFeedResult.articles = uniqueArticles pool ∧
      ∀ a ∈ wFeedResult.articles, pool.find? (fun b => b.url == a.url) = some a :=
  extractFeed_dedup_cap wEnv wUrl wFeedResult true (by rfl)

/-- C6: `extractFeed` fails with the invalid-URL error, without attempting
the fetch, for every input that is not a well-formed http/https URL; it
fails with the extraction error when feed discovery returns none and both
heuristic strategies find zero articles; and in the remaining cases (a
discovered feed, or a non-empty heuristic selection) it succeeds. -/
theorem extractFeed_error_contract :
    (∀ (env : JsEnv) (url : String), isHttpUrl env url = false →
      extractFeed env url = (.error .invalidUrl, false)) ∧
    (∀ (env : JsEnv) (url : String) (html : String), isHttpUrl env url = true →
      fetchHtml env url = .ok html →
      tryAutoDetectFeeds env (env.cheerio html) url = none →
      extractFromContainers env (env.cheerio html) url = [] →
      extractFromLinksByPattern env (env.cheerio html) url = [] →
      extractFeed env url = (.error .noArticles, true)) ∧
    (∀ (env : JsEnv) (url : String) (html : String) (nf : NormalizedFeed),
      isHttpUrl env url = true →
      fetchHtml env url = .ok html →
      tryAutoDetectFeeds env (env.cheerio html) url = some nf →
      ∃ r, extractFeed env url = (.ok r, true)) ∧
    (∀ (env : JsEnv) (url : String) (html : String),
      isHttpUrl env url = true →
      fetchHtml env url = .ok html →
      tryAutoDetectFeeds env (env.cheerio html) url = none →
      heuristicArticleSelection env (env.cheerio html) url ≠ [] →
      ∃ r, extractFeed env url = (.ok r, true)) := by
  have protoFacts : ∀ (env : JsEnv) (url : String), isHttpUrl env url = true →
      ∃ parsed, env.parseUrl url = some parsed ∧
        (parsed.protocol != "http:" && parsed.protocol != "https:") = false := by
    intro env url hhttp
    cases hp : env.parseUrl url with
    | none => simp [isHttpUrl, hp] at hhttp
    | some parsed =>
      have hproto : (parsed.protocol == "http:" || parsed.protocol == "https:") = true := by
        simpa [isHttpUrl, hp] using hhttp
      refine ⟨parsed, rfl, ?_⟩
      cases h1 : parsed.protocol == "http:" <;> simp_all [bne]
  refine ⟨?_, ?_, ?_, ?_⟩
  · intro env url hbad
    simp [extractFeed, hbad]
  · intro env url html hhttp hf hauto hA hB
    obtain ⟨parsed, hp, hproto2⟩ := protoFacts env url hhttp
    have hsel : heuristicArticleSelection env (env.cheerio html) url = [] := by
      simp only [heuristicArticleSelection, hA, hB, List.length_nil, List.nil_append]
      simp [uniqueArticles_nil]
    have hheu := (extractHeuristically_eval env url (env.cheerio html) parsed hp).1 hsel
    simp [extractFeed, hhttp, hp, hproto2, hf, hauto, hheu]
  · intro env url html nf hhttp hf hauto
    obtain ⟨parsed, hp, hproto2⟩ := protoFacts env url hhttp
    have hgen : generateRssXml env url nf.title nf.description nf.articles
        = some { title := nf.title, description := nf.description, id := url, link := url,
                 language := "ja", updated := env.now, generator := "create-rss-feed",
                 copyright := toString env.currentYear ++ " " ++ parsed.hostname,
                 items := nf.articles.map (articleToRssItem env) } := by
      simp [generateRssXml, hp]
    refine ⟨{ sourceUrl := url, feedTitle := nf.title, feedDescription := nf.description
              articles := nf.articles
              rssXml := { title := nf.title, description := nf.description, id := url, link := url,
                          language := "ja", updated := env.now, generator := "create-rss-feed",
                          copyright := toString env.currentYear ++ " " ++ parsed.hostname,
                          items := nf.articles.map (articleToRssItem env) }
              method := .rssAutoDetect }, ?_⟩
    simp [extractFeed, hhttp, hp, hproto2, hf, hauto, hgen]
  · intro env url html hhttp hf hauto hsel
    obtain ⟨parsed, hp, hproto2⟩ := protoFacts env url hhttp
    obtain ⟨nf, hheu, _⟩ := (extractHeuristically_eval env url (env.cheerio html) parsed hp).2 hsel
    have hgen : generateRssXml env url nf.title nf.description nf.articles
        = some { title := nf.title, description := nf.description, id := url, link := url,
                 language := "ja", updated := env.now, generator := "create-rss-feed",
                 copyright := toString env.currentYear ++ " " ++ parsed.hostname,
                 items := nf.articles.map (articleToRssItem env) } := by
      simp [generateRssXml, hp]
    refine ⟨{ sourceUrl := url, feedTitle := nf.title, feedDescription := nf.description
              articles := nf.articles
              rssXml := { title := nf.title, description := nf.description, id := url, link := url,
                          language := "ja", updated := env.now, generator := "create-rss-feed",
                          copyright := toString env.currentYear ++ " " ++ parsed.hostname,
                          items := nf.articles.map (articleToRssItem env) }
              method := .heuristic }, ?_⟩
    simp [extractFeed, hhttp, hp, hproto2, hf, hauto, hheu, hgen]

theorem extractFeed_error_contract_witness :
    extractFeed wEnv "notaurl" = (.error .invalidUrl, false) ∧
    extractFeed wEnvEmpty wUrl = (.error .noArticles, true) ∧
    (∃ r, extractFeed wEnvFeed wUrl = (.ok r, true)) ∧
    (∃ r, extractFeed wEnv wUrl = (.ok r, true)) :=
  ⟨extractFeed_error_contract.1 wEnv "notaurl" (by rfl),
   extractFeed_error_contract.2.1 wEnvEmpty wUrl "<html>" (by rfl) (by rfl) (by rfl)
     (by rfl) (by rfl),
   extractFeed_error_contract.2.2.1 wEnvFeed wUrl "<html>"
     { title := "Feed T", description := "Feed D"
       articles := [{ title := "E one", url := "https://ex.com/a1" }] }
     (by rfl) (by rfl) (by rfl),
   extractFeed_error_contract.2.2.2 wEnv wUrl "<html>" (by rfl) (by rfl) (by rfl)
     (by decide)⟩

/-- C7: Strategy B participates only when Strategy A yields fewer than 2
articles.  With 2 or more container articles the selection is Strategy A
alone and is independent of the page anchors (Strategy B never contributes);
otherwise the selection is the first-wins deduplication of Strategy A
followed by Strategy B, again deduplicated and capped. -/
theorem heuristic_strategy_priority (env : JsEnv) (dom : Dom) (sourceUrl : String) :
    (2 ≤ (extractFromContainers env dom sourceUrl).length →
      heuristicArticleSelection env dom sourceUrl = extractFromContainers env dom sourceUrl ∧
      ∀ anchors2 : List AnchorEl,
        heuristicArticleSelection env { dom with anchors := anchors2 } sourceUrl
          = extractFromContainers env dom sourceUrl) ∧
    ((extractFromContainers env dom sourceUrl).length < 2 →
      heuristicArticleSelection env dom sourceUrl
        = uniqueArticles (extractFromContainers env dom sourceUrl
            ++ extractFromLinksByPattern env dom sourceUrl)) ∧
    (∀ x ∈ uniqueArticles (extractFromContainers env dom sourceUrl
        ++ extractFromLinksByPattern env dom sourceUrl),
      (extractFromContainers env dom sourceUrl
        ++ extractFromLinksByPattern env dom sourceUrl).find? (fun b => b.url == x.url)
        = some x) ∧
    (heuristicArticleSelection env dom sourceUrl).length ≤ MAX_ARTICLES ∧
    ((heuristicArticleSelection env dom sourceUrl).map fun a => a.url).Nodup := by
  have hsame : ∀ anchors2 : List AnchorEl,
      extractFromContainers env { dom with anchors := anchors2 } sourceUrl
        = extractFromContainers env dom sourceUrl := fun _ => rfl
  refine ⟨?_, ?_, ?_, ?_, ?_⟩
  · intro h2
    constructor
    · simp only [heuristicArticleSelection, if_pos h2]
    · intro anchors2
      simp only [heuristicArticleSelection, hsame, if_pos h2]
  · intro h2
    have h2f : ¬ 2 ≤ (extractFromContainers env dom sourceUrl).length := by omega
    simp only [heuristicArticleSelection, if_neg h2f]
  · exact fun x hx => uniqueArticles_find _ x hx
  · obtain ⟨pool, hpool⟩ := heuristicArticleSelection_pool env dom sourceUrl
    rw [hpool]
    exact uniqueArticles_length_le pool
  · obtain ⟨pool, hpool⟩ := heuristicArticleSelection_pool env dom sourceUrl
    rw [hpool]
    exact uniqueArticles_nodup pool

theorem heuristic_strategy_priority_witness :
    2 ≤ (extractFromContainers wEnv wDomContainers wUrl).length ∧
    heuristicArticleSelection wEnv wDomContainers wUrl = [wA1, wA2] ∧
    ∀ anchors2 : List AnchorEl,
      heuristicArticleSelection wEnv { wDomContainers with anchors := anchors2 } wUrl
        = [wA1, wA2] := by
  have h := (heuristic_strategy_priority wEnv wDomContainers wUrl).1 (by decide)
  refine ⟨by decide, ?_, ?_⟩
  · rw [h.1]; rfl
  · intro anchors2; rw [h.2 anchors2]; rfl

/-- The candidate loop, characterized: when the source URL parses, the loop
returns `none` exactly when every candidate yields no articles, and a
success comes from the first candidate with a non-empty normalized list. -/
theorem autoDetectGo_spec (env : JsEnv) (dom : Dom) (sourceUrl : String)
    (extract : String → Option Extracted) (u0 : Url)
    (hsrc : env.parseUrl sourceUrl = some u0) :
    ∀ links : List String,
      (autoDetectGo env dom sourceUrl extract links = none ↔
        ∀ link ∈ links, candidateArticles env extract link = []) ∧
      (∀ nf, autoDetectGo env dom sourceUrl extract links = some nf →
        ∃ pre link suf, links = pre ++ link :: suf ∧
          (∀ l ∈ pre, candidateArticles env extract l = []) ∧
          candidateArticles env extract link ≠ [] ∧
          nf.articles = candidateArticles env extract link) := by
  intro links
  induction links with
  | nil =>
    constructor
    · simp [autoDetectGo]
    · intro nf h; simp [autoDetectGo] at h
  | cons link rest ih =>
    have skipCase : ∀ hcand : candidateArticles env extract link = [],
        ∀ hred : autoDetectGo env dom sourceUrl extract (link :: rest)
          = autoDetectGo env dom sourceUrl extract rest,
        (autoDetectGo env dom sourceUrl extract (link :: rest) = none ↔
          ∀ l ∈ link :: rest, candidateArticles env extract l = []) ∧
        (∀ nf, autoDetectGo env dom sourceUrl extract (link :: rest) = some nf →
          ∃ pre l suf, link :: rest = pre ++ l :: suf ∧
            (∀ x ∈ pre, candidateArticles env extract x = []) ∧
            candidateArticles env extract l ≠ [] ∧
            nf.articles = candidateArticles env extract l) := by
      intro hcand hred
      constructor
      · rw [hred, ih.1]
        constructor
        · intro hall l hl
          rcases List.mem_cons.mp hl with rfl | hl2
          · exact hcand
          · exact hall l hl2
        · intro hall l hl
          exact hall l (List.mem_cons_of_mem _ hl)
      · intro nf h
        rw [hred] at h
        obtain ⟨pre, l, suf, heq, hpre, hne, hart⟩ := ih.2 nf h
        refine ⟨link :: pre, l, suf, by rw [heq, List.cons_append], ?_, hne, hart⟩
        intro x hx
        rcases List.mem_cons.mp hx with rfl | hx2
        · exact hcand
        · exact hpre x hx2
    cases hx : extract link with
    | none =>
      have hcand : candidateArticles env extract link = [] := by
        simp [candidateArticles, hx]
      exact skipCase hcand (by simp only [autoDetectGo, hx])
    | some ext =>
      by_cases hlen :
          (uniqueArticles ((rawEntriesOf ext).filterMap (parseExtractorEntry env))).length = 0
      · have hcand : candidateArticles env extract link = [] := by
          simp only [candidateArticles, hx]
          exact List.length_eq_zero.mp hlen
        exact skipCase hcand (by simp only [autoDetectGo, hx, if_pos hlen])
      · have hcand : candidateArticles env extract link ≠ [] := by
          simp only [candidateArticles, hx]
          intro e
          rw [e] at hlen
          exact hlen rfl
        have htitle : ∃ t, (if cleanText ext.title ≠ "" then some (cleanText ext.title)
            else if cleanText dom.ogSiteName ≠ "" then some (cleanText dom.ogSiteName)
            else (env.parseUrl sourceUrl).map fun u => u.hostname) = some t := by
          by_cases h1 : cleanText ext.title = ""
          · by_cases h2 : cleanText dom.ogSiteName = ""
            · exact ⟨u0.hostname, by simp [h1, h2, hsrc]⟩
            · exact ⟨cleanText dom.ogSiteName, by simp [h1, h2]⟩
          · exact ⟨cleanText ext.title, by simp [h1]⟩
        obtain ⟨t, ht⟩ := htitle
        constructor
        · constructor
          · intro hnone
            simp only [autoDetectGo, hx, if_neg hlen, ht] at hnone
            exact Option.noConfusion hnone
          · intro hall
            exact absurd (hall link (List.mem_cons_self _ _)) hcand
        · intro nf h
          simp only [autoDetectGo, hx, if_neg hlen, ht] at h
          injection h with h2
          refine ⟨[], link, rest, rfl, by simp, hcand, ?_⟩
          rw [← h2]
          simp [candidateArticles, hx]

/-- C8: feed discovery returns none exactly when no usable candidate exists:
none without a feed-parsing library or without advertised candidates, and
otherwise none exactly when every probed candidate yields zero normalized
entries; a success returns the normalized feed of the first candidate with a
non-empty normalized entry list. -/
theorem feed_discovery_contract (env : JsEnv) (dom : Dom) (sourceUrl : String) (u0 : Url)
    (hsrc : env.parseUrl sourceUrl = some u0) :
    (env.extractor = none → tryAutoDetectFeeds env dom sourceUrl = none) ∧
    (∀ extract, env.extractor = some extract →
      ((tryAutoDetectFeeds env dom sourceUrl = none ↔
        (detectFeedLinks env dom sourceUrl = [] ∨
         ∀ link ∈ detectFeedLinks env dom sourceUrl,
           candidateArticles env extract link = [])) ∧
       (∀ nf, tryAutoDetectFeeds env dom sourceUrl = some nf →
         ∃ pre link suf, detectFeedLinks env dom sourceUrl = pre ++ link :: suf ∧
           (∀ l ∈ pre, candidateArticles env extract l = []) ∧
           candidateArticles env extract link ≠ [] ∧
           nf.articles = candidateArticles env extract link))) := by
  constructor
  · intro hnone
    simp [tryAutoDetectFeeds, hnone]
  · intro extract hex
    have hspec := autoDetectGo_spec env dom sourceUrl extract u0 hsrc
      (detectFeedLinks env dom sourceUrl)
    by_cases hlinks : (detectFeedLinks env dom sourceUrl).length = 0
    · have hnil : detectFeedLinks env dom sourceUrl = [] := List.length_eq_zero.mp hlinks
      constructor
      · constructor
        · intro _; exact Or.inl hnil
        · intro _; simp [tryAutoDetectFeeds, hex, hlinks]
      · intro nf hsome
        rw [show tryAutoDetectFeeds env dom sourceUrl = none
          from by simp [tryAutoDetectFeeds, hex, hlinks]] at hsome
        cases hsome
    · have hne : detectFeedLinks env dom sourceUrl ≠ [] := by
        intro e
        rw [e] at hlinks
        exact hlinks rfl
      have hred : tryAutoDetectFeeds env dom sourceUrl
          = autoDetectGo env dom sourceUrl extract (detectFeedLinks env dom sourceUrl) := by
        simp [tryAutoDetectFeeds, hex, hlinks]
      constructor
      · rw [hred, hspec.1]
        constructor
        · exact Or.inr
        · rintro (he | hall)
          · exact absurd he hne
          · exact hall
      · intro nf hsome
        rw [hred] at hsome
        exact hspec.2 nf hsome

theorem feed_discovery_contract_witness :
    tryAutoDetectFeeds wEnvFeed wDomFeed wUrl
      = some { title := "Feed T", description := "Feed D"
               articles := [{ title := "E one", url := "https://ex.com/a1" }] } ∧
    ∃ pre link suf, detectFeedLinks wEnvFeed wDomFeed wUrl = pre ++ link :: suf ∧
      (∀ l ∈ pre, candidateArticles wEnvFeed wExtract l = []) ∧
      candidateArticles wEnvFeed wExtract link ≠ [] ∧
      ({ title := "Feed T", description := "Feed D"
         articles := [{ title := "E one", url := "https://ex.com/a1" }] }
        : NormalizedFeed).articles = candidateArticles wEnvFeed wExtract link := by
  have h := feed_discovery_contract wEnvFeed wDomFeed wUrl
    { protocol := "https:", hostname := "ex.com", pathname := "/" } (by rfl)
  refine ⟨by rfl, ?_⟩
  exact (h.2 wExtract (by rfl)).2 _ (by rfl)

/-- C9: the synthesized document has exactly one entry per input article, in
order; each entry has identifier and link equal to the article URL, the
article title, the description or `""` when absent, the publish date equal
to the parsed timestamp or the synthesis time when the timestamp is absent
or unparsable, and a one-element author list exactly for a non-empty
author.  The hypothesis `env.parseDate "" = none` records that the host
date parser rejects the empty string. -/
theorem synthesizer_entries (env : JsEnv) (sourceUrl title description : String)
    (articles : List FeedArticle) (doc : RssDocument)
    (hEmpty : env.parseDate "" = none)
    (h : generateRssXml env sourceUrl title description articles = some doc) :
    doc.items = articles.map (articleToRssItem env) ∧
    ∀ a : FeedArticle,
      (articleToRssItem env a).id = a.url ∧
      (articleToRssItem env a).link = a.url ∧
      (articleToRssItem env a).title = a.title ∧
      (articleToRssItem env a).description = a.description.getD "" ∧
      (a.publishedAt = none → (articleToRssItem env a).date = env.now) ∧
      (∀ s, a.publishedAt = some s → env.parseDate s = none →
        (articleToRssItem env a).date = env.now) ∧
      (∀ s d, a.publishedAt = some s → env.parseDate s = some d →
        (articleToRssItem env a).date = d) ∧
      (∀ s, a.author = some s → s ≠ "" →
        (articleToRssItem env a).author = some [{ name := s }]) ∧
      (a.author = none → (articleToRssItem env a).author = none) := by
  constructor
  · simp only [generateRssXml] at h
    split at h
    · cases h
    · injection h with h2
      rw [← h2]
  · intro a
    refine ⟨rfl, rfl, rfl, rfl, ?_, ?_, ?_, ?_, ?_⟩
    · intro hnone
      simp [articleToRssItem, hnone]
    · intro s hs hparse
      by_cases hse : s = "" <;> simp [articleToRssItem, hs, hse, hparse]
    · intro s d hs hparse
      have hsne : s ≠ "" := by
        intro e
        rw [e, hEmpty] at hparse
        cases hparse
      simp [articleToRssItem, hs, hsne, hparse]
    · intro s hs hne
      simp [articleToRssItem, hs, hne]
    · intro hnone
      simp [articleToRssItem, hnone]

theorem synthesizer_entries_witness :
    wC9Doc.items = [wC9Article].map (articleToRssItem wEnv) ∧
    (articleToRssItem wEnv wC9Article).id = wC9Article.url ∧
    (articleToRssItem wEnv wC9Article).date = "2024-01-02T00:00:00.000Z" := by
  have h := synthesizer_entries wEnv wUrl "T" "D" [wC9Article] wC9Doc (by rfl) (by rfl)
  refine ⟨h.1, (h.2 wC9Article).1, ?_⟩
  exact (h.2 wC9Article).2.2.2.2.2.2.1 "2024-01-02" "2024-01-02T00:00:00.000Z" rfl (by rfl)

/-- C2 (spec-modelled): the rule-applying orchestrator applies the Rule
Engine to the extracted article list after extraction, synthesizes the
document from the filtered list together with the unfiltered feed
title/description, and returns the filtered articles alongside
`originalArticleCount` (the pre-filter count) and the rule-engine
statistics. -/
theorem extractFeedWithRules_composition (env : JsEnv) (url : String)
    (rules : Option SourceRules) (r : FeedResultV2) (fetched : Bool)
    (h : extractFeedWithRules env url rules = (.ok r, fetched)) :
    ∃ html nf,
      fetchHtml env url = .ok html ∧
      ((tryAutoDetectFeeds env (env.cheerio html) url = some nf ∧
          r.method = ExtractMethod.rssAutoDetect) ∨
       (tryAutoDetectFeeds env (env.cheerio html) url = none ∧
          extractHeuristically env url (env.cheerio html) = .ok nf ∧
          r.method = ExtractMethod.heuristic)) ∧
      r.feedTitle = nf.title ∧
      r.feedDescription = nf.description ∧
      r.articles = (applySourceRules feedArticleView nf.articles rules).articles ∧
      r.originalArticleCount = nf.articles.length ∧
      r.skippedTopCount = (applySourceRules feedArticleView nf.articles rules).skippedTopCount ∧
      r.ruleFilteredCount
        = (applySourceRules feedArticleView nf.articles rules).ruleFilteredCount ∧
      r.filteredOutCount
        = (applySourceRules feedArticleView nf.articles rules).filteredOutCount ∧
      r.appliedRules = (applySourceRules feedArticleView nf.articles rules).appliedRules ∧
      generateRssXml env url nf.title nf.description
        (applySourceRules feedArticleView nf.articles rules).articles = some r.rssXml := by
  cases hhttp : isHttpUrl env url with
  | false => simp [extractFeedWithRules, hhttp] at h
  | true =>
    cases hp : env.parseUrl url with
    | none => simp [isHttpUrl, hp] at hhttp
    | some parsed =>
      have hproto : (parsed.protocol == "http:" || parsed.protocol == "https:") = true := by
        simpa [isHttpUrl, hp] using hhttp
      have hproto2 : (parsed.protocol != "http:" && parsed.protocol != "https:") = false := by
        cases h1 : parsed.protocol == "http:" <;> simp_all [bne]
      cases hf : fetchHtml env url with
      | error e => simp [extractFeedWithRules, hhttp, hp, hproto2, hf] at h
      | ok html =>
        refine ⟨html, ?_⟩
        cases hauto : tryAutoDetectFeeds env (env.cheerio html) url with
        | some nf =>
          cases hgen : generateRssXml env url nf.title nf.description
              (applySourceRules feedArticleView nf.articles rules).articles with
          | none =>
            simp [extractFeedWithRules, hhttp, hp, hproto2, hf, hauto, hgen] at h
          | some doc =>
            refine ⟨nf, rfl, ?_⟩
            simp only [extractFeedWithRules, hhttp, hp, hproto2, hf, hauto, hgen,
              Bool.not_true, Bool.false_eq_true, if_false, Prod.mk.injEq] at h
            obtain ⟨h1, _⟩ := h
            cases h1
            exact ⟨Or.inl ⟨rfl, rfl⟩, rfl, rfl, rfl, rfl, rfl, rfl, rfl, rfl, hgen⟩
        | none =>
          cases hheu : extractHeuristically env url (env.cheerio html) with
          | error e =>
            simp [extractFeedWithRules, hhttp, hp, hproto2, hf, hauto, hheu] at h
          | ok nf =>
            cases hgen : generateRssXml env url nf.title nf.description
                (applySourceRules feedArticleView nf.articles rules).articles with
            | none =>
              simp [extractFeedWithRules, hhttp, hp, hproto2, hf, hauto, hheu, hgen] at h
            | some doc =>
              refine ⟨nf, rfl, ?_⟩
              simp only [extractFeedWithRules, hhttp, hp, hproto2, hf, hauto, hheu, hgen,
                Bool.not_true, Bool.false_eq_true, if_false, Prod.mk.injEq] at h
              obtain ⟨h1, _⟩ := h
              cases h1
              exact ⟨Or.inr ⟨rfl, rfl, rfl⟩, rfl, rfl, rfl, rfl, rfl, rfl, rfl, rfl, hgen⟩

theorem extractFeedWithRules_composition_witness :
    ∃ html nf,
      fetchHtml wEnv wUrl = .ok html ∧
      ((tryAutoDetectFeeds wEnv (wEnv.cheerio html) wUrl = some nf ∧
          wR2.method = ExtractMethod.rssAutoDetect) ∨
       (tryAutoDetectFeeds wEnv (wEnv.cheerio html) wUrl = none ∧
          extractHeuristically wEnv wUrl (wEnv.cheerio html) = .ok nf ∧
          wR2.method = ExtractMethod.heuristic)) ∧
      wR2.feedTitle = nf.title ∧
      wR2.feedDescription = nf.description ∧
      wR2.articles = (applySourceRules feedArticleView nf.articles
        (some { titleExcludes := .arr [.str "two"] })).articles ∧
      wR2.originalArticleCount = nf.articles.length ∧
      wR2.skippedTopCount = (applySourceRules feedArticleView nf.articles
        (some { titleExcludes := .arr [.str "two"] })).skippedTopCount ∧
      wR2.ruleFilteredCount = (applySourceRules feedArticleView nf.articles
        (some { titleExcludes := .arr [.str "two"] })).ruleFilteredCount ∧
      wR2.filteredOutCount = (applySourceRules feedArticleView nf.articles
        (some { titleExcludes := .arr [.str "two"] })).filteredOutCount ∧
      wR2.appliedRules = (applySourceRules feedArticleView nf.articles
        (some { titleExcludes := .arr [.str "two"] })).appliedRules ∧
      generateRssXml wEnv wUrl nf.title nf.description
        (applySourceRules feedArticleView nf.articles
          (some { titleExcludes := .arr [.str "two"] })).articles = some wR2.rssXml :=
  extractFeedWithRules_composition wEnv wUrl (some { titleExcludes := .arr [.str "two"] })
    wR2 true (by rfl)

end CreateRssFeed
